import Mathlib

/-!
# Verification of the token-bucket rate limiter (`App/rate_limiter.py`)

Shallow embedding of `TokenBucket` and `check_rate_limit` from
`src/App/rate_limiter.py`.  Python floats are modelled as exact rationals
(`ℚ`); the Python `int` capacity is modelled as `ℤ`.  The monotonic clock
reading `time.monotonic()` inside `allow` and the `TokenBucket` constructor
is made an explicit argument `now : ℚ`.  The mutable global dictionary
`_buckets` is modelled as a function `String → Option TokenBucket` threaded
through `check_rate_limit` explicitly.
-/

namespace RateLimiter

/-- Embedding of the `TokenBucket` instance state: fields `capacity`
(Python `int`), `tokens` (float), `refill_rate_per_sec` (float) and
`last_refill_ts` (float, a monotonic-clock reading).  The `Lock` field has
no functional content and is omitted. -/
structure TokenBucket where
  capacity : ℤ
  tokens : ℚ
  refill_rate_per_sec : ℚ
  last_refill_ts : ℚ
  deriving Repr, DecidableEq

/-- Embedding of `TokenBucket.__init__(capacity, refill_rate_per_sec)`;
`now` is the `time.monotonic()` reading taken in the constructor.
`self.tokens = float(capacity)`. -/
def TokenBucket.init (capacity : ℤ) (refill_rate_per_sec : ℚ) (now : ℚ) :
    TokenBucket :=
  { capacity := capacity
    tokens := (capacity : ℚ)
    refill_rate_per_sec := refill_rate_per_sec
    last_refill_ts := now }

/-- Embedding of `TokenBucket.allow(cost)`; `now` is the `time.monotonic()`
reading taken inside the call.  Returns the boolean result together with
the post-state.  Mirrors the source line by line: update `last_refill_ts`,
add `elapsed * refill_rate_per_sec` to `tokens`, clamp to `capacity` from
above, then the admission test `tokens >= cost`. -/
def TokenBucket.allow (b : TokenBucket) (now : ℚ) (cost : ℚ) :
    Bool × TokenBucket :=
  let elapsed := now - b.last_refill_ts
  let tokens1 := b.tokens + elapsed * b.refill_rate_per_sec
  let tokens2 := if tokens1 > (b.capacity : ℚ) then (b.capacity : ℚ) else tokens1
  if tokens2 ≥ cost then
    (true, { b with tokens := tokens2 - cost, last_refill_ts := now })
  else
    (false, { b with tokens := tokens2, last_refill_ts := now })

/-- Embedding of `check_rate_limit(api_key, limit_per_min)`; `reg` is the
state of the global `_buckets` dictionary before the call and `now` the
monotonic-clock reading used by the constructor / `allow` during the call.
Returns the boolean decision together with the post-state of `_buckets`. -/
def check_rate_limit (reg : String → Option TokenBucket) (api_key : String)
    (limit_per_min : ℤ) (now : ℚ) :
    Bool × (String → Option TokenBucket) :=
  if limit_per_min ≤ 0 then
    (true, reg)
  else
    let refill_rate : ℚ := (limit_per_min : ℚ) / 60
    let bucket :=
      match reg api_key with
      | none => TokenBucket.init limit_per_min refill_rate now
      | some b =>
          if b.capacity ≠ limit_per_min then
            TokenBucket.init limit_per_min refill_rate now
          else b
    let r := bucket.allow now 1
    (r.1, fun k => if k = api_key then some r.2 else reg k)

/-- Reference token-bucket step, written from the spec's words (section 4.1):
`t' = min(capacity, tokens + elapsed * refillRatePerSecond)`, admit and
subtract `cost` when `t' ≥ cost`, else deny leaving `t'`; `lastRefillTimestamp`
becomes `now` either way. -/
def TokenBucket.allowRef (b : TokenBucket) (now : ℚ) (cost : ℚ) :
    Bool × TokenBucket :=
  let tPrime := min (b.capacity : ℚ)
    (b.tokens + (now - b.last_refill_ts) * b.refill_rate_per_sec)
  if tPrime ≥ cost then
    (true, { b with tokens := tPrime - cost, last_refill_ts := now })
  else
    (false, { b with tokens := tPrime, last_refill_ts := now })

/-- `n` successive `allow(1.0)` calls on a bucket, all at the same clock
reading `now`: the list of boolean results together with the final state. -/
def allowCalls : TokenBucket → ℚ → ℕ → List Bool × TokenBucket
  | b, _, 0 => ([], b)
  | b, now, n + 1 =>
      let r := b.allow now 1
      let rest := allowCalls r.2 now n
      (r.1 :: rest.1, rest.2)

/-- A run of `allow` calls: each element of the list is a pair
(clock reading, cost); returns the final bucket state. -/
def runCalls : TokenBucket → List (ℚ × ℚ) → TokenBucket
  | b, [] => b
  | b, c :: rest => runCalls (b.allow c.1 c.2).2 rest

/-- A call list is valid from timestamp `ts` when the clock readings are
nondecreasing starting at `ts` and every cost is nonnegative. -/
def validCalls : ℚ → List (ℚ × ℚ) → Bool
  | _, [] => true
  | ts, c :: rest => decide (ts ≤ c.1) && decide (0 ≤ c.2) && validCalls c.1 rest

end RateLimiter

namespace RateLimiter

theorem allow_capacity (b : TokenBucket) (now cost : ℚ) :
    (b.allow now cost).2.capacity = b.capacity := by
  unfold TokenBucket.allow
  dsimp only
  split_ifs <;> rfl

theorem allow_rate (b : TokenBucket) (now cost : ℚ) :
    (b.allow now cost).2.refill_rate_per_sec = b.refill_rate_per_sec := by
  unfold TokenBucket.allow
  dsimp only
  split_ifs <;> rfl

theorem allow_ts (b : TokenBucket) (now cost : ℚ) :
    (b.allow now cost).2.last_refill_ts = now := by
  unfold TokenBucket.allow
  dsimp only
  split_ifs <;> rfl

/-- The post-refill admission test succeeds whenever the cost is below both
the refilled token count and the capacity. -/
theorem allow_fst_true (b : TokenBucket) (now cost : ℚ)
    (h1 : cost ≤ b.tokens + (now - b.last_refill_ts) * b.refill_rate_per_sec)
    (h2 : cost ≤ (b.capacity : ℚ)) :
    (b.allow now cost).1 = true := by
  have hge : (if b.tokens + (now - b.last_refill_ts) * b.refill_rate_per_sec
        > (b.capacity : ℚ) then (b.capacity : ℚ)
      else b.tokens + (now - b.last_refill_ts) * b.refill_rate_per_sec) ≥ cost := by
    split_ifs with hc
    · exact h2
    · exact h1
  unfold TokenBucket.allow
  rw [if_pos hge]

/-- An `allow` call with zero elapsed time and unit cost, admitting case. -/
theorem allow_same_time_admit (C : ℤ) (t r now : ℚ)
    (ht : t ≤ (C : ℚ)) (hc : 1 ≤ t) :
    TokenBucket.allow ⟨C, t, r, now⟩ now 1 = (true, ⟨C, t - 1, r, now⟩) := by
  unfold TokenBucket.allow
  simp only [sub_self, zero_mul, add_zero]
  rw [if_neg (not_lt.mpr ht), if_pos hc]

/-- An `allow` call with zero elapsed time and unit cost, denying case. -/
theorem allow_same_time_deny (C : ℤ) (t r now : ℚ)
    (ht : t ≤ (C : ℚ)) (hc : t < 1) :
    TokenBucket.allow ⟨C, t, r, now⟩ now 1 = (false, ⟨C, t, r, now⟩) := by
  unfold TokenBucket.allow
  simp only [sub_self, zero_mul, add_zero]
  rw [if_neg (not_lt.mpr ht), if_neg (not_le.mpr hc)]

/-- Draining: a bucket holding `k ≤ capacity` whole tokens admits exactly
`k` zero-elapsed unit calls, ending empty. -/
theorem allowCalls_drain (k : ℕ) :
    ∀ (C : ℤ) (r now : ℚ), (k : ℤ) ≤ C →
      allowCalls ⟨C, (k : ℚ), r, now⟩ now k
        = (List.replicate k true, ⟨C, 0, r, now⟩) := by
  induction k with
  | zero =>
      intro C r now _
      simp [allowCalls]
  | succ k ih =>
      intro C r now h
      have hC : ((k : ℚ) + 1) ≤ (C : ℚ) := by
        have hz : ((k : ℤ) + 1) ≤ C := by exact_mod_cast h
        exact_mod_cast hz
      have hcast : ((k + 1 : ℕ) : ℚ) = (k : ℚ) + 1 := by push_cast; ring
      have h1 : (1 : ℚ) ≤ (k : ℚ) + 1 := le_add_of_nonneg_left (Nat.cast_nonneg k)
      have hk : (k : ℤ) ≤ C := le_trans (by omega) h
      simp only [allowCalls, hcast, allow_same_time_admit C ((k : ℚ) + 1) r now hC h1,
        add_sub_cancel_right, ih C r now hk, List.replicate_succ]

/-- Splitting off the last of `m + 1` same-time unit calls. -/
theorem allowCalls_snoc (m : ℕ) :
    ∀ (b : TokenBucket) (now : ℚ),
      (allowCalls b now (m + 1)).1
        = (allowCalls b now m).1 ++ (allowCalls (allowCalls b now m).2 now 1).1 := by
  induction m with
  | zero =>
      intro b now
      simp [allowCalls]
  | succ m ihm =>
      intro b now
      have h1 : (allowCalls b now (m + 1 + 1)).1
          = (b.allow now 1).1 :: (allowCalls (b.allow now 1).2 now (m + 1)).1 := rfl
      have h2 : (allowCalls b now (m + 1)).1
          = (b.allow now 1).1 :: (allowCalls (b.allow now 1).2 now m).1 := rfl
      have h3 : (allowCalls b now (m + 1)).2
          = (allowCalls (b.allow now 1).2 now m).2 := rfl
      rw [h1, ihm, h2, h3, List.cons_append]

/-- C2: a freshly constructed bucket with integer capacity `C ≥ 1` admits
the first `C` zero-elapsed unit-cost calls then denies the `(C+1)`-th. -/
theorem fresh_bucket_admission_bound (C : ℕ) (r t0 : ℚ) (_h : 1 ≤ C) :
    (allowCalls (TokenBucket.init (C : ℤ) r t0) t0 (C + 1)).1
      = List.replicate C true ++ [false] := by
  have hinit : TokenBucket.init (C : ℤ) r t0 = ⟨(C : ℤ), (C : ℚ), r, t0⟩ := by
    unfold TokenBucket.init
    norm_num
  have hdrain := allowCalls_drain C (C : ℤ) r t0 le_rfl
  have hcap : (0 : ℚ) ≤ ((C : ℤ) : ℚ) := by positivity
  have hlast := allow_same_time_deny (C : ℤ) 0 r t0 hcap (by norm_num)
  rw [hinit, allowCalls_snoc C, hdrain]
  simp [allowCalls, hlast]

/-- Witness for C2 at capacity 2. -/
theorem fresh_bucket_admission_bound_witness :
    1 ≤ 2 ∧
      (allowCalls (TokenBucket.init ((2 : ℕ) : ℤ) 1 0) 0 (2 + 1)).1
        = List.replicate 2 true ++ [false] :=
  ⟨by norm_num, fresh_bucket_admission_bound 2 1 0 (by norm_num)⟩

/-- Single-step preservation of the token range invariant, together with
the frame facts about the other fields. -/
theorem allow_invariant_step (b : TokenBucket) (now cost : ℚ)
    (h0 : 0 ≤ b.tokens) (h1 : b.tokens ≤ (b.capacity : ℚ))
    (hr : 0 ≤ b.refill_rate_per_sec) (hn : b.last_refill_ts ≤ now)
    (hc : 0 ≤ cost) :
    0 ≤ (b.allow now cost).2.tokens ∧
      (b.allow now cost).2.tokens ≤ ((b.allow now cost).2.capacity : ℚ) := by
  have hcap : (0 : ℚ) ≤ (b.capacity : ℚ) := le_trans h0 h1
  have helapsed : 0 ≤ (now - b.last_refill_ts) * b.refill_rate_per_sec :=
    mul_nonneg (by linarith) hr
  unfold TokenBucket.allow
  dsimp only
  split_ifs with hclamp hadmit hadmit
  · constructor
    · simpa using sub_nonneg.mpr hadmit
    · simpa using sub_le_self (b.capacity : ℚ) hc
  · constructor
    · simpa using hcap
    · simp
  · constructor
    · simpa using sub_nonneg.mpr hadmit
    · have : b.tokens + (now - b.last_refill_ts) * b.refill_rate_per_sec
          ≤ (b.capacity : ℚ) := not_lt.mp hclamp
      simp only
      linarith
  · constructor
    · simp only
      linarith
    · have : b.tokens + (now - b.last_refill_ts) * b.refill_rate_per_sec
          ≤ (b.capacity : ℚ) := not_lt.mp hclamp
      simpa using this

/-- C3: starting from a freshly constructed bucket with nonnegative capacity
and refill rate, `0 ≤ tokens ≤ capacity` holds after the constructor
(the empty call list) and after every valid sequence of `allow` calls. -/
theorem tokens_range_invariant (C : ℤ) (r t0 : ℚ) (calls : List (ℚ × ℚ))
    (hC : 0 ≤ C) (hr : 0 ≤ r) (hv : validCalls t0 calls = true) :
    0 ≤ (runCalls (TokenBucket.init C r t0) calls).tokens ∧
      (runCalls (TokenBucket.init C r t0) calls).tokens
        ≤ ((runCalls (TokenBucket.init C r t0) calls).capacity : ℚ) := by
  have main : ∀ (l : List (ℚ × ℚ)) (b : TokenBucket),
      0 ≤ b.tokens → b.tokens ≤ (b.capacity : ℚ) →
      0 ≤ b.refill_rate_per_sec → validCalls b.last_refill_ts l = true →
      0 ≤ (runCalls b l).tokens ∧
        (runCalls b l).tokens ≤ ((runCalls b l).capacity : ℚ) := by
    intro l
    induction l with
    | nil =>
        intro b h0 h1 _ _
        exact ⟨h0, h1⟩
    | cons c rest ih =>
        intro b h0 h1 hrb hv
        simp only [validCalls, Bool.and_eq_true, decide_eq_true_eq] at hv
        obtain ⟨⟨hts, hc⟩, hrest⟩ := hv
        have hstep := allow_invariant_step b c.1 c.2 h0 h1 hrb hts hc
        have hrw : (runCalls b (c :: rest)) = runCalls (b.allow c.1 c.2).2 rest := rfl
        rw [hrw]
        exact ih (b.allow c.1 c.2).2 hstep.1 hstep.2
          (by rw [allow_rate]; exact hrb)
          (by rw [allow_ts]; exact hrest)
  exact main calls (TokenBucket.init C r t0)
    (by unfold TokenBucket.init; simpa using (by exact_mod_cast hC : (0 : ℚ) ≤ (C : ℚ)))
    (by unfold TokenBucket.init; simp)
    (by unfold TokenBucket.init; simpa using hr)
    (by unfold TokenBucket.init; simpa using hv)

/-- Witness for C3 at a concrete bucket and two-call run. -/
theorem tokens_range_invariant_witness :
    (0 : ℤ) ≤ 2 ∧ (0 : ℚ) ≤ 1/30 ∧
      validCalls 0 [(1, 1), (2, 1)] = true ∧
      (0 ≤ (runCalls (TokenBucket.init 2 (1/30) 0) [(1, 1), (2, 1)]).tokens ∧
        (runCalls (TokenBucket.init 2 (1/30) 0) [(1, 1), (2, 1)]).tokens
          ≤ ((runCalls (TokenBucket.init 2 (1/30) 0) [(1, 1), (2, 1)]).capacity : ℚ)) :=
  ⟨by norm_num, by norm_num, by decide,
    tokens_range_invariant 2 (1/30) 0 [(1, 1), (2, 1)]
      (by norm_num) (by norm_num) (by decide)⟩

/-- C4: a nonpositive per-minute limit bypasses rate limiting entirely:
the call returns `true` and the bucket registry is unchanged. -/
theorem unlimited_bypass (reg : String → Option TokenBucket) (key : String)
    (lim : ℤ) (now : ℚ) (h : lim ≤ 0) :
    check_rate_limit reg key lim now = (true, reg) := by
  unfold check_rate_limit
  rw [if_pos h]

/-- Witness for C4 at limit 0 and the empty registry. -/
theorem unlimited_bypass_witness :
    (0 : ℤ) ≤ 0 ∧
      check_rate_limit (fun _ => none) "k" 0 0 = (true, fun _ => none) :=
  ⟨le_rfl, unlimited_bypass (fun _ => none) "k" 0 0 le_rfl⟩

/-- C5: with a positive limit and a missing or capacity-mismatched registry
entry, a fresh full bucket with `capacity = limit` and refill rate
`limit / 60` replaces the entry and decides the call.  The fresh bucket
starts with `tokens = capacity`. -/
theorem quota_change_resets (reg : String → Option TokenBucket) (key : String)
    (lim : ℤ) (now : ℚ) (h1 : 1 ≤ lim)
    (h2 : reg key = none ∨ ∃ b, reg key = some b ∧ b.capacity ≠ lim) :
    (TokenBucket.init lim ((lim : ℚ) / 60) now).tokens
        = ((TokenBucket.init lim ((lim : ℚ) / 60) now).capacity : ℚ) ∧
      (TokenBucket.init lim ((lim : ℚ) / 60) now).capacity = lim ∧
      check_rate_limit reg key lim now
        = (((TokenBucket.init lim ((lim : ℚ) / 60) now).allow now 1).1,
           fun k => if k = key then
               some ((TokenBucket.init lim ((lim : ℚ) / 60) now).allow now 1).2
             else reg k) := by
  refine ⟨rfl, rfl, ?_⟩
  unfold check_rate_limit
  rw [if_neg (by omega : ¬ lim ≤ 0)]
  rcases h2 with hnone | ⟨b, hsome, hcap⟩
  · rw [hnone]
  · rw [hsome]
    dsimp only
    rw [if_pos hcap]

/-- Witness for C5: a registry whose entry for `"a"` has capacity 1,
queried with limit 2. -/
theorem quota_change_resets_witness :
    (1 : ℤ) ≤ 2 ∧
      ((fun k => if k = "a" then some (⟨1, 1, 1/60, 0⟩ : TokenBucket) else none)
          "a" = none ∨
        ∃ b, (fun k => if k = "a" then some (⟨1, 1, 1/60, 0⟩ : TokenBucket)
            else none) "a" = some b ∧ b.capacity ≠ 2) ∧
      check_rate_limit
          (fun k => if k = "a" then some (⟨1, 1, 1/60, 0⟩ : TokenBucket) else none)
          "a" 2 0
        = (((TokenBucket.init 2 ((2 : ℚ) / 60) 0).allow 0 1).1,
           fun k => if k = "a" then
               some ((TokenBucket.init 2 ((2 : ℚ) / 60) 0).allow 0 1).2
             else (fun k => if k = "a" then
               some (⟨1, 1, 1/60, 0⟩ : TokenBucket) else none) k) :=
  ⟨by norm_num,
    Or.inr ⟨⟨1, 1, 1/60, 0⟩, by simp, by decide⟩,
    (quota_change_resets _ "a" 2 0 (by norm_num)
      (Or.inr ⟨⟨1, 1, 1/60, 0⟩, by simp, by decide⟩)).2.2⟩

/-- C1: on every state and call, `allow` agrees with the reference
token-bucket step: the clamp `if tokens > capacity then capacity`
computes exactly `min capacity (tokens + elapsed * rate)`, and the two
admit/deny branches coincide. -/
theorem allow_eq_allowRef (b : TokenBucket) (now cost : ℚ)
    (_h : b.last_refill_ts ≤ now) :
    b.allow now cost = b.allowRef now cost := by
  unfold TokenBucket.allow TokenBucket.allowRef
  have hmin : (if b.tokens + (now - b.last_refill_ts) * b.refill_rate_per_sec
        > (b.capacity : ℚ) then (b.capacity : ℚ)
      else b.tokens + (now - b.last_refill_ts) * b.refill_rate_per_sec)
      = min (b.capacity : ℚ)
        (b.tokens + (now - b.last_refill_ts) * b.refill_rate_per_sec) := by
    rcases le_or_lt (b.tokens + (now - b.last_refill_ts) * b.refill_rate_per_sec)
        (b.capacity : ℚ) with hle | hlt
    · rw [if_neg (not_lt.mpr hle), min_eq_right hle]
    · rw [if_pos hlt, min_eq_left hlt.le]
  simp only [hmin]

/-- Witness for C1 at a concrete state and call. -/
theorem allow_eq_allowRef_witness :
    (0 : ℚ) ≤ 2 ∧
      TokenBucket.allow ⟨5, 3, 1, 0⟩ 2 1 = TokenBucket.allowRef ⟨5, 3, 1, 0⟩ 2 1 :=
  ⟨by norm_num, allow_eq_allowRef ⟨5, 3, 1, 0⟩ 2 1 (by norm_num)⟩

/-- The post-state of `allow` keeps `tokens` nonnegative whenever the
pre-state's tokens are nonnegative, the clock did not go backwards and the
refill rate is nonnegative (no cost-sign assumption: on admit the branch
condition itself bounds the subtraction). -/
theorem allow_tokens_nonneg (b : TokenBucket) (now cost : ℚ)
    (h0 : 0 ≤ b.tokens) (hn : b.last_refill_ts ≤ now)
    (hr : 0 ≤ b.refill_rate_per_sec) (hcap : 0 ≤ (b.capacity : ℚ)) :
    0 ≤ (b.allow now cost).2.tokens := by
  have helapsed : 0 ≤ (now - b.last_refill_ts) * b.refill_rate_per_sec :=
    mul_nonneg (by linarith) hr
  unfold TokenBucket.allow
  dsimp only
  split_ifs with hclamp hadmit hadmit
  · simpa using sub_nonneg.mpr hadmit
  · simpa using hcap
  · simpa using sub_nonneg.mpr hadmit
  · simp only
    linarith

/-- C6: after a deny on a bucket with capacity ≥ 1, positive refill rate and
nonnegative tokens, waiting `dt` further seconds with `dt * rate ≥ 1` makes
the next unit-cost call admit. -/
theorem deny_then_refill_admits (b : TokenBucket) (now dt : ℚ)
    (ht : 0 ≤ b.tokens) (hn : b.last_refill_ts ≤ now)
    (hcap : 1 ≤ b.capacity) (hr : 0 < b.refill_rate_per_sec)
    (hdt : 1 ≤ dt * b.refill_rate_per_sec)
    (_hdeny : (b.allow now 1).1 = false) :
    ((b.allow now 1).2.allow (now + dt) 1).1 = true := by
  have hcapQ : (1 : ℚ) ≤ (b.capacity : ℚ) := by exact_mod_cast hcap
  have h0 : 0 ≤ (b.allow now 1).2.tokens :=
    allow_tokens_nonneg b now 1 ht hn hr.le (by linarith)
  apply allow_fst_true
  · rw [allow_ts, allow_rate]
    have he : (now + dt - now) * b.refill_rate_per_sec
        = dt * b.refill_rate_per_sec := by ring
    rw [he]
    linarith
  · rw [allow_capacity]
    exact hcapQ

/-- Witness for C6: an empty capacity-1 bucket denies at time 0 and admits
again at time 1 with refill rate 1. -/
theorem deny_then_refill_admits_witness :
    (TokenBucket.allow ⟨1, 0, 1, 0⟩ 0 1).1 = false ∧
      ((TokenBucket.allow ⟨1, 0, 1, 0⟩ 0 1).2.allow (0 + 1) 1).1 = true :=
  ⟨by rw [allow_same_time_deny 1 0 1 0 (by norm_num) (by norm_num)],
    deny_then_refill_admits ⟨1, 0, 1, 0⟩ 0 1 (by norm_num) (by norm_num)
      (by norm_num) (by norm_num) (by norm_num)
      (by rw [allow_same_time_deny 1 0 1 0 (by norm_num) (by norm_num)])⟩

/-- C7: `allow` and `check_rate_limit` are total functions of their state
and inputs; every call yields a boolean (admit or deny), never an error
value — deny is an ordinary `false` return. -/
theorem limiter_total :
    (∀ (b : TokenBucket) (now cost : ℚ),
      (b.allow now cost).1 = true ∨ (b.allow now cost).1 = false) ∧
    ∀ (reg : String → Option TokenBucket) (key : String) (lim : ℤ) (now : ℚ),
      (check_rate_limit reg key lim now).1 = true ∨
        (check_rate_limit reg key lim now).1 = false :=
  ⟨fun b now cost => Bool.eq_false_or_eq_true ((b.allow now cost).1),
   fun reg key lim now =>
     Bool.eq_false_or_eq_true ((check_rate_limit reg key lim now).1)⟩

/-- C9: the first `check_rate_limit` call for a key with no registry entry
and a positive limit admits: the fresh bucket starts full with
`tokens = capacity = limit ≥ 1`. -/
theorem first_call_admits (reg : String → Option TokenBucket) (key : String)
    (lim : ℤ) (now : ℚ) (h1 : reg key = none) (h2 : 1 ≤ lim) :
    (check_rate_limit reg key lim now).1 = true := by
  have hlim : (1 : ℚ) ≤ (lim : ℚ) := by exact_mod_cast h2
  unfold check_rate_limit
  rw [if_neg (by omega : ¬ lim ≤ 0)]
  dsimp only
  rw [h1]
  dsimp only
  apply allow_fst_true
  · unfold TokenBucket.init
    dsimp only
    have he : ((lim : ℚ)) + (now - now) * ((lim : ℚ) / 60) = (lim : ℚ) := by ring
    rw [he]
    exact hlim
  · unfold TokenBucket.init
    exact hlim

/-- Witness for C9 on the empty registry with limit 1. -/
theorem first_call_admits_witness :
    ((fun _ => none : String → Option TokenBucket) "k" = none) ∧ (1 : ℤ) ≤ 1 ∧
      (check_rate_limit (fun _ => none) "k" 1 0).1 = true :=
  ⟨rfl, le_rfl, first_call_admits (fun _ => none) "k" 1 0 rfl le_rfl⟩

/-- C10: when the existing bucket's capacity matches the requested limit,
that same bucket (with its accumulated token state) decides the call and
only the argument key's registry entry is touched; moreover no
`check_rate_limit` call ever changes the registry entry of a key different
from its argument key. -/
theorem matching_capacity_no_replace_and_frame
    (reg reg2 : String → Option TokenBucket) (key key2 k : String)
    (lim lim2 : ℤ) (now now2 : ℚ) (b : TokenBucket)
    (h1 : reg key = some b) (h2 : b.capacity = lim) (h3 : 1 ≤ lim)
    (hk : k ≠ key2) :
    check_rate_limit reg key lim now
        = ((b.allow now 1).1,
           fun x => if x = key then some (b.allow now 1).2 else reg x) ∧
      (check_rate_limit reg2 key2 lim2 now2).2 k = reg2 k := by
  constructor
  · unfold check_rate_limit
    rw [if_neg (by omega : ¬ lim ≤ 0)]
    rw [h1]
    dsimp only
    rw [if_neg (by simp [h2] : ¬ b.capacity ≠ lim)]
  · unfold check_rate_limit
    split_ifs
    · rfl
    · dsimp only
      rw [if_neg hk]

/-- Witness for C10 on a one-entry registry with matching capacity 1. -/
theorem matching_capacity_no_replace_and_frame_witness :
    ((fun x => if x = "a" then some (⟨1, 1, 1/60, 0⟩ : TokenBucket) else none)
        "a" = some (⟨1, 1, 1/60, 0⟩ : TokenBucket)) ∧
      (⟨1, 1, 1/60, 0⟩ : TokenBucket).capacity = 1 ∧ ("b" : String) ≠ "a" ∧
      (check_rate_limit
          (fun x => if x = "a" then some (⟨1, 1, 1/60, 0⟩ : TokenBucket) else none)
          "a" 1 0
        = (((⟨1, 1, 1/60, 0⟩ : TokenBucket).allow 0 1).1,
           fun x => if x = "a" then
               some ((⟨1, 1, 1/60, 0⟩ : TokenBucket).allow 0 1).2
             else (fun x => if x = "a" then
               some (⟨1, 1, 1/60, 0⟩ : TokenBucket) else none) x) ∧
        (check_rate_limit
            (fun x => if x = "a" then some (⟨1, 1, 1/60, 0⟩ : TokenBucket) else none)
            "a" 1 0).2 "b"
          = (fun x => if x = "a" then some (⟨1, 1, 1/60, 0⟩ : TokenBucket)
              else none) "b") :=
  ⟨by simp, rfl, by decide,
    matching_capacity_no_replace_and_frame _ _ "a" "a" "b" 1 1 0 0
      ⟨1, 1, 1/60, 0⟩ (by simp) rfl le_rfl (by decide)⟩

end RateLimiter
